import Mathlib

/-!
Shallow embedding of the semcad prompt-builder core (src/main.ts):
the message-list model, the content serializer for the two request
protocols, the output-list model with streaming updates, the generation
entry points, and the template loader.  All definitions are executable
translations of the corresponding TypeScript; theorems about them follow
after the definitions.
-/

namespace Semcad

/-- `GeminiImageManipulator.PLACEHOLDER_IMAGE`. -/
def PLACEHOLDER_IMAGE : String := "https://placehold.co/800"

/-- `GeminiImageManipulator.MODEL`. -/
def MODEL : String := "gemini-2.5-flash-image-preview"

/-- `GeminiImageManipulator.TEXT_MODEL`. -/
def TEXT_MODEL : String := "gemini-2.5-flash"

/-- A binary blob: raw bytes plus the declared MIME type (`Blob`/`File`). -/
structure Blob where
  bytes : List Nat
  type : String
deriving DecidableEq, Repr

/-- The image payload attached to a message item:
`{ blob, mimeType, dataUrl }`. -/
structure ImagePayload where
  blob : Blob
  mimeType : String
  dataUrl : String
deriving DecidableEq, Repr

/-- One entry of the message list: `{ id, text, image }`. -/
structure MessageItem where
  id : String
  text : String
  image : Option ImagePayload
deriving DecidableEq, Repr

/-- One entry of the output list: `{ id, imageUrl, text, loading }`. -/
structure OutputItem where
  id : String
  imageUrl : Option String
  text : String
  loading : Bool
deriving DecidableEq, Repr

/-- The JavaScript `String.prototype.trim()`: strip leading and trailing
whitespace.  Defined over the character list so that it is
kernel-computable. -/
def jsTrim (s : String) : String :=
  String.mk (((s.data.dropWhile Char.isWhitespace).reverse.dropWhile
    Char.isWhitespace).reverse)

/-- The base64 alphabet. -/
def base64Chars : List Char :=
  "ABCDEFGHIJKLMNOPQRSTUVWXYZabcdefghijklmnopqrstuvwxyz0123456789+/".toList

/-- The base64 digit for a 6-bit value. -/
def base64Char (n : Nat) : Char := base64Chars.getD n '='

/-- Modelled from the spec: the Blob Codec converts raw binary image data
to base64 (the browser `FileReader` used by `blobToBase64` is an external
capability; this is the standard base64 encoding it produces). -/
def base64Encode : List Nat → String
  | [] => ""
  | [b1] =>
      String.mk [base64Char (b1 / 4), base64Char (b1 % 4 * 16), '=', '=']
  | [b1, b2] =>
      String.mk [base64Char (b1 / 4), base64Char (b1 % 4 * 16 + b2 / 16),
        base64Char (b2 % 16 * 4), '=']
  | b1 :: b2 :: b3 :: rest =>
      String.mk [base64Char (b1 / 4), base64Char (b1 % 4 * 16 + b2 / 16),
        base64Char (b2 % 16 * 4 + b3 / 64), base64Char (b3 % 64)]
        ++ base64Encode rest

/-- `blobToBase64`: base64 string without the data URL prefix. -/
def blobToBase64 (b : Blob) : String := base64Encode b.bytes

/-- `blobToDataUrl`: data URL for UI display. -/
def blobToDataUrl (b : Blob) : String :=
  "data:" ++ b.type ++ ";base64," ++ base64Encode b.bytes

/-- One atomic unit of a request payload: a text part or an inline-binary
part carrying base64 data plus a MIME type. -/
inductive Part where
  | text (s : String)
  | inlineData (data : String) (mimeType : String)
deriving DecidableEq, Repr

/-- The parts contributed by one message item, shared body of the loops in
`generateImageContent` and `generateTextContent`; `sep` is the separator
between the trimmed text and the "See image:" sentinel (`"\n"` in the
image flow, `" "` in the text flow). -/
def messagePartsWith (sep : String) (message : MessageItem) : List Part :=
  match message.image with
  | some img =>
      let textContent := jsTrim message.text
      let textWithPrompt :=
        if textContent = "" then "See image:" else textContent ++ sep ++ "See image:"
      [Part.text textWithPrompt,
        Part.inlineData (blobToBase64 img.blob) img.mimeType]
  | none =>
      if jsTrim message.text = "" then [] else [Part.text (jsTrim message.text)]

/-- The parts array built from the message list in `generateImageContent`
(before the system message is prepended). -/
def buildImageParts (messages : List MessageItem) : List Part :=
  messages.flatMap (messagePartsWith "\n")

/-- The parts array built from the message list in `generateTextContent`. -/
def buildTextParts (messages : List MessageItem) : List Part :=
  messages.flatMap (messagePartsWith " ")

/-- The request config: `{ responseModalities, systemInstruction? }`. -/
structure GenConfig where
  responseModalities : List String
  systemInstruction : Option String
deriving DecidableEq, Repr

/-- One turn of the request contents: `{ role, parts }`. -/
structure Content where
  role : String
  parts : List Part
deriving DecidableEq, Repr

/-- The full request submitted to `generateContentStream`. -/
structure GenRequest where
  model : String
  config : GenConfig
  contents : List Content
deriving DecidableEq, Repr

/-- The request assembled by `generateImageContent`: the system message is
pushed as the first text part of the single user turn, and the config has
no system slot. -/
def imageGenRequest (systemMsg : String) (messages : List MessageItem) : GenRequest :=
  let parts :=
    (if systemMsg = "" then [] else [Part.text (jsTrim systemMsg)]) ++ buildImageParts messages
  { model := MODEL
    config := { responseModalities := ["IMAGE"], systemInstruction := none }
    contents := [{ role := "user", parts := parts }] }

/-- The request assembled by `generateTextContent`: the system message goes
into `config.systemInstruction` and is not injected into the parts. -/
def textGenRequest (systemMsg : String) (messages : List MessageItem) : GenRequest :=
  { model := TEXT_MODEL
    config := { responseModalities := ["TEXT"],
                systemInstruction := if systemMsg = "" then none else some systemMsg }
    contents := [{ role := "user", parts := buildTextParts messages }] }

/-- `addItem`: append an empty item carrying the next id and bump the
counter. -/
def addItem (messages : List MessageItem) (nextId : Nat) : List MessageItem × Nat :=
  (messages ++ [{ id := Nat.repr nextId, text := "", image := none }], nextId + 1)

/-- `deleteMessage`: drop every item whose id matches. -/
def deleteMessage (messages : List MessageItem) (id : String) : List MessageItem :=
  messages.filter (fun msg => msg.id ≠ id)

/-- `updateMessageText`: set the text of the first item with the given id;
no-op when the id is absent. -/
def updateMessageText : List MessageItem → String → String → List MessageItem
  | [], _, _ => []
  | msg :: rest, id, text =>
      if msg.id = id then { msg with text := text } :: rest
      else msg :: updateMessageText rest id text

/-- The image-payload replacement on the first matching item, the
then-branch body of `updateMessageImage`. -/
def setMessageImage (id : String) (file : Blob) : List MessageItem → List MessageItem
  | [] => []
  | msg :: rest =>
      let payload : ImagePayload :=
        { blob := file, mimeType := file.type, dataUrl := blobToDataUrl file }
      if msg.id = id then { msg with image := some payload } :: rest
      else msg :: setMessageImage id file rest

/-- `updateMessageImage`: reject non-image files, otherwise replace the
image payload of the first item with the given id (deriving the data URL
from the blob); no-op when the id is absent. -/
def updateMessageImage (messages : List MessageItem) (id : String) (file : Blob) :
    List MessageItem :=
  if ¬ file.type.startsWith "image/" then messages
  else setMessageImage id file messages

/-- `handleDrop`, reduced to its reorder of the messages array:
remove the dragged item and reinsert it next to the target, with the
index-shift correction when the dragged item preceded the target.
`isTop` is true when the drop lands in the upper half, i.e. insert
before the target. -/
def reorderMessages (messages : List MessageItem) (draggedId targetId : String)
    (isTop : Bool) : List MessageItem :=
  if draggedId = targetId then messages
  else
    let draggedIndex := messages.findIdx (fun msg => msg.id = draggedId)
    let targetIndex := messages.findIdx (fun msg => msg.id = targetId)
    if messages.length ≤ draggedIndex ∨ messages.length ≤ targetIndex then messages
    else
      match messages[draggedIndex]? with
      | none => messages
      | some draggedMessage =>
          let rest := messages.eraseIdx draggedIndex
          let insertIndex :=
            if draggedIndex < targetIndex then
              if isTop then targetIndex - 1 else targetIndex
            else
              if isTop then targetIndex else targetIndex + 1
          rest.insertIdx insertIndex draggedMessage

/-- `addOutput`: prepend a fresh loading output (placeholder image when
`showImage`) and return its id with the new list and counter. -/
def addOutput (outputs : List OutputItem) (nextOutputId : Nat) (showImage : Bool) :
    String × List OutputItem × Nat :=
  let id := Nat.repr nextOutputId
  let output : OutputItem :=
    { id := id
      imageUrl := if showImage then some PLACEHOLDER_IMAGE else none
      text := "Generating..."
      loading := true }
  (id, output :: outputs, nextOutputId + 1)

/-- `updateOutput`: on the first output with the given id, set the image
URL and text and clear `loading`; no-op when the id is absent. -/
def updateOutput : List OutputItem → String → Option String → String → List OutputItem
  | [], _, _, _ => []
  | o :: rest, id, imageUrl, text =>
      if o.id = id then
        { o with imageUrl := imageUrl, text := text, loading := false } :: rest
      else o :: updateOutput rest id imageUrl text

/-- `outputs.find` projected to the `loading` flag (false when absent). -/
def outputLoading (outputs : List OutputItem) (id : String) : Bool :=
  match outputs.find? (fun o => o.id = id) with
  | some o => o.loading
  | none => false

/-- One part of a streamed image-mode chunk: `inlineData` or `text`. -/
inductive StreamPart where
  | inlineData (mimeType : String) (data : String)
  | text (s : String)
deriving DecidableEq, Repr

/-- The accumulation step of the image flow over one streamed part:
inline data becomes a data URL appended to the image list, non-empty text
is appended to the running text. -/
def consumePart (acc : List String × String) (p : StreamPart) : List String × String :=
  match p with
  | .inlineData mimeType data =>
      (acc.1 ++ ["data:" ++ mimeType ++ ";base64," ++ data], acc.2)
  | .text s => if s = "" then acc else (acc.1, acc.2 ++ s)

/-- The image flow consuming the whole stream: each chunk carries zero or
more parts; nothing else happens until the stream ends. -/
def consumeImageStream (chunks : List (List StreamPart)) : List String × String :=
  chunks.foldl (fun acc parts => parts.foldl consumePart acc) ([], "")

/-- The single finalizing `updateOutput` argument pair of the image flow:
first produced image and accumulated text, with the canned fallbacks. -/
def imageFinalUpdate (acc : List String × String) : Option String × String :=
  match acc.1 with
  | finalImageUrl :: _ =>
      (some finalImageUrl,
        if acc.2 = "" then "Image successfully generated." else acc.2)
  | [] =>
      (some PLACEHOLDER_IMAGE,
        if acc.2 = "" then "Generation complete, but no image was returned." else acc.2)

/-- All `updateOutput` calls performed by `generateImageContent` while and
after consuming the stream: none per chunk, one at the end. -/
def imageStreamUpdates (chunks : List (List StreamPart)) : List (Option String × String) :=
  [imageFinalUpdate (consumeImageStream chunks)]

/-- The loop of `generateTextContent`: append each chunk text delta
(`chunk.text || ""`) to the running string, updating the output in place
after every chunk, then one final update with the canned fallback when
the running string is empty. -/
def textStreamUpdatesAux (textContent : String) :
    List (Option String) → List (Option String × String)
  | [] =>
      [(none,
        if textContent = "" then "Text generation complete, but no text was returned."
        else textContent)]
  | c :: cs =>
      let t := textContent ++ c.getD ""
      (none, t) :: textStreamUpdatesAux t cs

/-- All `updateOutput` calls performed by `generateTextContent`. -/
def textStreamUpdates (chunks : List (Option String)) : List (Option String × String) :=
  textStreamUpdatesAux "" chunks

/-- The running string after consuming `chunks`, starting from `acc`. -/
def accTextFrom (acc : String) (chunks : List (Option String)) : String :=
  chunks.foldl (fun a c => a ++ c.getD "") acc

/-- The states of the output list after each successive `updateOutput`
call of a generation flow. -/
def applyUpdates (outputs : List OutputItem) (id : String) :
    List (Option String × String) → List (List OutputItem)
  | [] => []
  | u :: us =>
      let s := updateOutput outputs id u.1 u.2
      s :: applyUpdates s id us

/-- The final output list after all `updateOutput` calls of a flow. -/
def runUpdates (outputs : List OutputItem) (id : String)
    (updates : List (Option String × String)) : List OutputItem :=
  updates.foldl (fun s u => updateOutput s id u.1 u.2) outputs

/-- Adjacent true-then-false transitions of a boolean trace. -/
def countFlips : List Bool → Nat
  | [] => 0
  | [_] => 0
  | a :: b :: rest =>
      (if a = true ∧ b = false then 1 else 0) + countFlips (b :: rest)

/-- Outcome of one generation entry point (`handleGenerateImage` or
`handleGenerateText`): the output list and counter after the synchronous
validation phase, the validation alert if one was raised, and whether a
request was submitted. -/
structure GenAttempt where
  outputs : List OutputItem
  nextOutputId : Nat
  alertMsg : Option String
  requested : Bool
deriving DecidableEq, Repr

/-- Shared body of the two generation entry points: trim the credential
and system text, validate, then create the pending output and submit. -/
def handleGenerate (showImage : Bool) (apiKeyRaw systemRaw : String)
    (messages : List MessageItem) (outputs : List OutputItem)
    (nextOutputId : Nat) : GenAttempt :=
  let apiKey := jsTrim apiKeyRaw
  let systemMsg := jsTrim systemRaw
  if apiKey = "" then
    { outputs := outputs, nextOutputId := nextOutputId
      alertMsg := some "Please provide an API Key.", requested := false }
  else if systemMsg = "" ∧ messages = [] then
    { outputs := outputs, nextOutputId := nextOutputId
      alertMsg := some "Please provide either a system message or at least one message item."
      requested := false }
  else
    let r := addOutput outputs nextOutputId showImage
    { outputs := r.2.1, nextOutputId := r.2.2, alertMsg := none, requested := true }

/-- `handleGenerateImage`: validation then image generation (placeholder
image on the pending output). -/
def handleGenerateImage (apiKeyRaw systemRaw : String) (messages : List MessageItem)
    (outputs : List OutputItem) (nextOutputId : Nat) : GenAttempt :=
  handleGenerate true apiKeyRaw systemRaw messages outputs nextOutputId

/-- `handleGenerateText`: validation then text generation (no image on
the pending output). -/
def handleGenerateText (apiKeyRaw systemRaw : String) (messages : List MessageItem)
    (outputs : List OutputItem) (nextOutputId : Nat) : GenAttempt :=
  handleGenerate false apiKeyRaw systemRaw messages outputs nextOutputId

/-- One entry of a loadable template: `{ role, text, image }` where the
image carries only a data URL. -/
structure TemplateMessage where
  role : String
  text : String
  image : Option String
deriving DecidableEq, Repr

/-- A loadable template. -/
structure Template where
  messages : List TemplateMessage
deriving DecidableEq, Repr

/-- The fetch-and-decode of one optional template image: fetching the
data URL yields a blob (or fails); the payload keeps the fetched blob,
its type and the original data URL. -/
def decodeEntryImage (env : String → Except String Blob) :
    Option String → Except String (Option ImagePayload)
  | none => Except.ok none
  | some dataUrl =>
      match env dataUrl with
      | Except.error e => Except.error e
      | Except.ok blob =>
          Except.ok (some { blob := blob, mimeType := blob.type, dataUrl := dataUrl })

/-- State touched by `loadTemplate`: the message list and its counter, the
system message value, and the alert raised by the catch handler. -/
structure LoadState where
  messages : List MessageItem
  nextId : Nat
  systemValue : String
  alertMsg : Option String
deriving DecidableEq, Repr

/-- The entry loop of `loadTemplate`: assign the next id, fetch and decode
the image if any, and push the new item; a failure escapes to the catch
handler, which raises the alert and performs nothing further. -/
def loadTemplateGo (env : String → Except String Blob) :
    List TemplateMessage → LoadState → LoadState
  | [], st => st
  | msg :: rest, st =>
      let id := Nat.repr st.nextId
      let st1 := { st with nextId := st.nextId + 1 }
      match decodeEntryImage env msg.image with
      | Except.error _ => { st1 with alertMsg := some "Failed to load template." }
      | Except.ok image =>
          loadTemplateGo env rest
            { st1 with messages := st1.messages ++ [{ id := id, text := msg.text, image := image }] }

/-- `loadTemplate`: clear the message list and counter, take the first
system entry as the new system message, then convert the non-system
entries in order. -/
def loadTemplate (env : String → Except String Blob) (tmpl : Template)
    (prevSystem : String) : LoadState :=
  let systemValue :=
    match tmpl.messages.find? (fun m => m.role = "system") with
    | some m => m.text
    | none => prevSystem
  loadTemplateGo env (tmpl.messages.filter (fun m => m.role ≠ "system"))
    { messages := [], nextId := 1, systemValue := systemValue, alertMsg := none }

/-- The ids of a message list. -/
def msgIds (messages : List MessageItem) : List String := messages.map (fun m => m.id)

/-- The mutable state of the message list model. -/
structure MsgState where
  messages : List MessageItem
  nextId : Nat
deriving DecidableEq, Repr

/-- One user-driven operation on the message list. -/
inductive MsgOp where
  | add
  | delete (id : String)
  | reorder (draggedId targetId : String) (isTop : Bool)
deriving DecidableEq, Repr

/-- Apply one operation. -/
def msgStep (st : MsgState) : MsgOp → MsgState
  | MsgOp.add =>
      { messages := (addItem st.messages st.nextId).1, nextId := (addItem st.messages st.nextId).2 }
  | MsgOp.delete id => { st with messages := deleteMessage st.messages id }
  | MsgOp.reorder d t b => { st with messages := reorderMessages st.messages d t b }

/-- Apply a sequence of operations. -/
def msgRun (st : MsgState) : List MsgOp → MsgState
  | [] => st
  | op :: ops => msgRun (msgStep st op) ops

/-- The constructor state: empty list, counter at 1. -/
def initMsgState : MsgState := { messages := [], nextId := 1 }

/-- The invariant maintained by the message list model: every id is the
decimal representation of a number below the counter, and the ids are
pairwise distinct. -/
def MsgInv (st : MsgState) : Prop :=
  (∀ m ∈ st.messages, ∃ k, m.id = Nat.repr k ∧ k < st.nextId) ∧ (msgIds st.messages).Nodup

/-- The numeric value of a decimal digit character. -/
def charVal (c : Char) : Nat := c.toNat - 48

/-- The value of a most-significant-first decimal digit list. -/
def decDigitsVal (l : List Char) : Nat :=
  l.foldl (fun a c => 10 * a + charVal c) 0

/-- A sample binary blob (start of a PNG header). -/
def sampleBlob : Blob := { bytes := [137, 80, 78], type := "image/png" }

/-- A sample image payload built from `sampleBlob`. -/
def sampleImage : ImagePayload :=
  { blob := sampleBlob, mimeType := "image/png", dataUrl := blobToDataUrl sampleBlob }

/-- A fetch environment in which every fetch fails. -/
def failEnv : String → Except String Blob := fun _ => Except.error "fetch failed"

/-- Sample items labelled A, B, C, D. -/
def itemA : MessageItem := { id := "A", text := "a", image := none }

/-- Sample item B. -/
def itemB : MessageItem := { id := "B", text := "b", image := none }

/-- Sample item C. -/
def itemC : MessageItem := { id := "C", text := "c", image := none }

/-- Sample item D. -/
def itemD : MessageItem := { id := "D", text := "d", image := none }

/-- A sample template: a system entry, a plain first user entry, and a
second user entry carrying an image reference. -/
def sampleTemplate : Template :=
  { messages :=
      [ { role := "system", text := "sys", image := none }
      , { role := "user", text := "first", image := none }
      , { role := "user", text := "second", image := some "u" } ] }

end Semcad

namespace Semcad

/-! ### Helper lemmas -/

lemma updateOutput_of_forall_ne (outputs : List OutputItem) (id : String)
    (imageUrl : Option String) (text : String) (h : ∀ o ∈ outputs, o.id ≠ id) :
    updateOutput outputs id imageUrl text = outputs := by
  induction outputs with
  | nil => rfl
  | cons o rest ih =>
      have ho : o.id ≠ id := h o (List.mem_cons_self o rest)
      simp only [updateOutput, if_neg ho]
      rw [ih fun x hx => h x (List.mem_cons_of_mem o hx)]

lemma updateMessageText_of_forall_ne (messages : List MessageItem) (id text : String)
    (h : ∀ m ∈ messages, m.id ≠ id) :
    updateMessageText messages id text = messages := by
  induction messages with
  | nil => rfl
  | cons m rest ih =>
      have hm : m.id ≠ id := h m (List.mem_cons_self m rest)
      simp only [updateMessageText, if_neg hm]
      rw [ih fun x hx => h x (List.mem_cons_of_mem m hx)]

lemma setMessageImage_of_forall_ne (messages : List MessageItem) (id : String)
    (file : Blob) (h : ∀ m ∈ messages, m.id ≠ id) :
    setMessageImage id file messages = messages := by
  induction messages with
  | nil => rfl
  | cons m rest ih =>
      have hm : m.id ≠ id := h m (List.mem_cons_self m rest)
      simp only [setMessageImage, if_neg hm]
      rw [ih fun x hx => h x (List.mem_cons_of_mem m hx)]

/-! ### C10: updates addressed to an absent id are no-ops -/

/-- C10: for an id absent from the output list, `updateOutput` leaves the
list unchanged, and for an id absent from the message list,
`updateMessageText` and `updateMessageImage` leave that list unchanged. -/
theorem absent_id_updates_noop (outputs : List OutputItem) (messages : List MessageItem)
    (id : String) (imageUrl : Option String) (text newText : String) (file : Blob) :
    ((∀ o ∈ outputs, o.id ≠ id) → updateOutput outputs id imageUrl text = outputs)
    ∧ ((∀ m ∈ messages, m.id ≠ id) → updateMessageText messages id newText = messages)
    ∧ ((∀ m ∈ messages, m.id ≠ id) → updateMessageImage messages id file = messages) := by
  refine ⟨fun h => updateOutput_of_forall_ne outputs id imageUrl text h,
    fun h => updateMessageText_of_forall_ne messages id newText h, fun h => ?_⟩
  unfold updateMessageImage
  split
  · rfl
  · exact setMessageImage_of_forall_ne messages id file h

/-- Witness for C10 at a concrete absent id. -/
theorem absent_id_updates_noop_witness :
    updateOutput [{ id := "1", imageUrl := none, text := "x", loading := true }] "2" none "y"
      = [{ id := "1", imageUrl := none, text := "x", loading := true }]
    ∧ updateMessageText [{ id := "1", text := "t", image := none }] "2" "u"
      = [{ id := "1", text := "t", image := none }]
    ∧ updateMessageImage [{ id := "1", text := "t", image := none }] "2" sampleBlob
      = [{ id := "1", text := "t", image := none }] := by
  have h := absent_id_updates_noop
    [{ id := "1", imageUrl := none, text := "x", loading := true }]
    [{ id := "1", text := "t", image := none }] "2" none "y" "u" sampleBlob
  exact ⟨h.1 (by decide), h.2.1 (by decide), h.2.2 (by decide)⟩

/-! ### C5: synchronous validation of the generation entry points -/

/-- C5: both entry points fail fast with an alert, create no output and
submit no request when the trimmed credential is empty or the trimmed
system text is empty with an empty message list; otherwise both create
the pending output and submit. -/
theorem generate_validation (apiKeyRaw systemRaw : String) (messages : List MessageItem)
    (outputs : List OutputItem) (nextOutputId : Nat) :
    ((jsTrim apiKeyRaw = "" ∨ (jsTrim systemRaw = "" ∧ messages = [])) →
      (handleGenerateImage apiKeyRaw systemRaw messages outputs nextOutputId).alertMsg.isSome
      ∧ handleGenerateImage apiKeyRaw systemRaw messages outputs nextOutputId =
          { outputs := outputs, nextOutputId := nextOutputId
            alertMsg := (handleGenerateImage apiKeyRaw systemRaw messages outputs nextOutputId).alertMsg
            requested := false }
      ∧ (handleGenerateText apiKeyRaw systemRaw messages outputs nextOutputId).alertMsg.isSome
      ∧ handleGenerateText apiKeyRaw systemRaw messages outputs nextOutputId =
          { outputs := outputs, nextOutputId := nextOutputId
            alertMsg := (handleGenerateText apiKeyRaw systemRaw messages outputs nextOutputId).alertMsg
            requested := false })
    ∧ (jsTrim apiKeyRaw ≠ "" → ¬ (jsTrim systemRaw = "" ∧ messages = []) →
      handleGenerateImage apiKeyRaw systemRaw messages outputs nextOutputId =
        { outputs :=
            { id := Nat.repr nextOutputId, imageUrl := some PLACEHOLDER_IMAGE
              text := "Generating...", loading := true } :: outputs
          nextOutputId := nextOutputId + 1, alertMsg := none, requested := true }
      ∧ handleGenerateText apiKeyRaw systemRaw messages outputs nextOutputId =
        { outputs :=
            { id := Nat.repr nextOutputId, imageUrl := none
              text := "Generating...", loading := true } :: outputs
          nextOutputId := nextOutputId + 1, alertMsg := none, requested := true }) := by
  constructor
  · intro h
    rcases h with hk | hsm
    · simp [handleGenerateImage, handleGenerateText, handleGenerate, hk]
    · by_cases hk : jsTrim apiKeyRaw = "" <;>
        simp [handleGenerateImage, handleGenerateText, handleGenerate, hk, hsm.1, hsm.2]
  · intro hk hsm
    simp [handleGenerateImage, handleGenerateText, handleGenerate, hk, hsm, addOutput]

/-- Witness for C5: a concrete failing input and a concrete passing one. -/
theorem generate_validation_witness :
    (handleGenerateImage "" "sys" [] [] 1).requested = false
    ∧ handleGenerateText "key" "sys" [] [] 1 =
        { outputs := [{ id := "1", imageUrl := none, text := "Generating...", loading := true }]
          nextOutputId := 2, alertMsg := none, requested := true } := by
  constructor
  · have h := (generate_validation "" "sys" [] [] 1).1 (Or.inl (by decide))
    rw [h.2.1]
  · have h := (generate_validation "key" "sys" [] [] 1).2 (by decide) (by decide)
    exact h.2

end Semcad

namespace Semcad

/-! ### C8: system instruction placement per mode -/

/-- C8: with a non-empty system instruction, the image-mode request puts
it as the first text part of the single user turn and has no system slot
in the config, while the text-mode request carries it in the config and
its user-turn parts do not depend on it. -/
theorem system_instruction_placement (systemMsg : String) (messages : List MessageItem)
    (h : systemMsg ≠ "") :
    (imageGenRequest systemMsg messages).contents =
      [{ role := "user",
         parts := Part.text (jsTrim systemMsg) :: buildImageParts messages }]
    ∧ (imageGenRequest systemMsg messages).config.systemInstruction = none
    ∧ (textGenRequest systemMsg messages).config.systemInstruction = some systemMsg
    ∧ (textGenRequest systemMsg messages).contents =
        [{ role := "user", parts := buildTextParts messages }]
    ∧ (textGenRequest systemMsg messages).contents = (textGenRequest "" messages).contents := by
  refine ⟨?_, rfl, ?_, rfl, rfl⟩
  · simp [imageGenRequest, h]
  · simp [textGenRequest, h]

/-- Witness for C8 at a concrete system instruction. -/
theorem system_instruction_placement_witness :
    (imageGenRequest "sys" []).contents = [{ role := "user", parts := [Part.text "sys"] }]
    ∧ (textGenRequest "sys" []).config.systemInstruction = some "sys" := by
  have h := system_instruction_placement "sys" [] (by decide)
  refine ⟨?_, h.2.2.1⟩
  rw [h.1]
  decide

/-! ### C1: the "See image:" sentinel emitted before each inline part -/

/-- C1: an item with an image contributes a text part ending in the
sentinel "See image:" immediately followed by the inline-binary part; the
trimmed text is separated from the sentinel by a newline in image mode
and by a single space in text mode, and an empty trimmed text yields the
sentinel alone.  Concretely, text "hi" with an image serializes to
"hi\nSee image:" (image mode) and "hi See image:" (text mode) followed by
the inline part. -/
theorem serializer_image_sentinel (l1 l2 : List MessageItem) (m : MessageItem)
    (img : ImagePayload) (h : m.image = some img) :
    (buildImageParts (l1 ++ m :: l2) =
      buildImageParts l1 ++
        (Part.text (if jsTrim m.text = "" then "See image:"
            else jsTrim m.text ++ "\n" ++ "See image:") ::
          Part.inlineData (blobToBase64 img.blob) img.mimeType :: buildImageParts l2))
    ∧ (buildTextParts (l1 ++ m :: l2) =
      buildTextParts l1 ++
        (Part.text (if jsTrim m.text = "" then "See image:"
            else jsTrim m.text ++ " " ++ "See image:") ::
          Part.inlineData (blobToBase64 img.blob) img.mimeType :: buildTextParts l2))
    ∧ buildImageParts [{ id := "1", text := "hi", image := some sampleImage }] =
        [Part.text "hi\nSee image:", Part.inlineData (blobToBase64 sampleBlob) "image/png"]
    ∧ buildTextParts [{ id := "1", text := "hi", image := some sampleImage }] =
        [Part.text "hi See image:", Part.inlineData (blobToBase64 sampleBlob) "image/png"] := by
  refine ⟨?_, ?_, by decide, by decide⟩
  · simp [buildImageParts, messagePartsWith, h]
  · simp [buildTextParts, messagePartsWith, h]

/-- Witness for C1 at a concrete item. -/
theorem serializer_image_sentinel_witness :
    buildImageParts [{ id := "1", text := "hi", image := some sampleImage }] =
      buildImageParts [] ++
        (Part.text (if jsTrim "hi" = "" then "See image:"
            else jsTrim "hi" ++ "\n" ++ "See image:") ::
          Part.inlineData (blobToBase64 sampleImage.blob) sampleImage.mimeType ::
            buildImageParts []) := by
  exact (serializer_image_sentinel [] [] { id := "1", text := "hi", image := some sampleImage }
    sampleImage rfl).1

end Semcad

namespace Semcad

/-! ### C7: incremental text streaming -/

lemma textStreamUpdatesAux_eq (chunks : List (Option String)) : ∀ acc : String,
    textStreamUpdatesAux acc chunks =
      ((List.range chunks.length).map fun i =>
        ((none : Option String), accTextFrom acc (chunks.take (i + 1))))
      ++ [(none,
            if accTextFrom acc chunks = ""
            then "Text generation complete, but no text was returned."
            else accTextFrom acc chunks)] := by
  induction chunks with
  | nil => intro acc; simp [textStreamUpdatesAux, accTextFrom]
  | cons c cs ih =>
      intro acc
      have hstep : ∀ l, accTextFrom acc (c :: l) = accTextFrom (acc ++ c.getD "") l :=
        fun l => rfl
      simp only [textStreamUpdatesAux, List.length_cons, List.range_succ_eq_map,
        List.map_cons, List.map_map, List.cons_append]
      refine congrArg₂ List.cons ?_ ?_
      · simp [accTextFrom]
      · rw [ih (acc ++ c.getD "")]
        exact rfl

/-- C7: the text flow performs one in-place update per chunk whose text is
the running concatenation of the chunk deltas so far, then one final
update, with the canned message when the final running string is empty.
Concretely, chunks "He" then "llo" give intermediate updates "He" and
"Hello" and a final state with text "Hello" and loading cleared. -/
theorem text_stream_incremental (chunks : List (Option String)) :
    textStreamUpdates chunks =
      ((List.range chunks.length).map fun i =>
        ((none : Option String), accTextFrom "" (chunks.take (i + 1))))
      ++ [(none,
            if accTextFrom "" chunks = ""
            then "Text generation complete, but no text was returned."
            else accTextFrom "" chunks)]
    ∧ textStreamUpdates [some "He", some "llo"] =
        [(none, "He"), (none, "Hello"), (none, "Hello")]
    ∧ runUpdates [{ id := "1", imageUrl := none, text := "Generating...", loading := true }] "1"
        (textStreamUpdates [some "He", some "llo"])
      = [{ id := "1", imageUrl := none, text := "Hello", loading := false }] :=
  ⟨textStreamUpdatesAux_eq chunks "", by decide, by decide⟩

/-! ### C6: image-flow finalization happens once, at stream end -/

/-- C6: the image flow updates its output exactly once, after the stream
ends; with at least one produced image the output is finalized with the
first one and the accumulated text (canned success text when empty), and
with none it is finalized with the placeholder reference and the
accumulated text (canned no-image text when empty). -/
theorem image_stream_finalization (chunks : List (List StreamPart)) (urls : List String)
    (textContent : String) (h : consumeImageStream chunks = (urls, textContent)) :
    imageStreamUpdates chunks = [imageFinalUpdate (urls, textContent)]
    ∧ (∀ u us, urls = u :: us →
        imageFinalUpdate (urls, textContent) =
          (some u, if textContent = "" then "Image successfully generated." else textContent))
    ∧ (urls = [] →
        imageFinalUpdate (urls, textContent) =
          (some PLACEHOLDER_IMAGE,
            if textContent = "" then "Generation complete, but no image was returned."
            else textContent)) := by
  refine ⟨by rw [imageStreamUpdates, h], ?_, ?_⟩
  · intro u us hu; subst hu; rfl
  · intro hu; subst hu; rfl

/-- Witness for C6 at a concrete stream with one image and one text part. -/
theorem image_stream_finalization_witness :
    imageStreamUpdates [[StreamPart.inlineData "image/png" "iVBO"], [StreamPart.text "ok"]] =
      [(some "data:image/png;base64,iVBO",
        if "ok" = "" then "Image successfully generated." else "ok")] := by
  have h := image_stream_finalization
    [[StreamPart.inlineData "image/png" "iVBO"], [StreamPart.text "ok"]]
    ["data:image/png;base64,iVBO"] "ok" (by decide)
  rw [h.1, h.2.1 "data:image/png;base64,iVBO" [] rfl]

end Semcad

namespace Semcad

/-! ### C2: reorder places the dragged item adjacent to the target -/

lemma findIdx_append_of_neg {α : Type} (p : α → Bool) (l1 l2 : List α)
    (h : ∀ x ∈ l1, p x = false) :
    (l1 ++ l2).findIdx p = l1.length + l2.findIdx p := by
  induction l1 with
  | nil => simp
  | cons a l ih =>
      simp only [List.cons_append, List.findIdx_cons, h a (List.mem_cons_self a l),
        cond_false, List.length_cons]
      rw [ih fun x hx => h x (List.mem_cons_of_mem a hx)]
      omega

lemma findIdx_cons_self {α : Type} (p : α → Bool) (a : α) (l : List α) (h : p a = true) :
    (a :: l).findIdx p = 0 := by
  simp [List.findIdx_cons, h]

lemma insertIdx_length_add {α : Type} (l1 l2 : List α) (a : α) (k : Nat) :
    (l1 ++ l2).insertIdx (l1.length + k) a = l1 ++ l2.insertIdx k a := by
  induction l1 with
  | nil => simp
  | cons b l ih =>
      simp only [List.cons_append, List.length_cons]
      rw [show l.length + 1 + k = (l.length + k) + 1 by omega,
        List.insertIdx_succ_cons, ih]

lemma eraseIdx_append_length (l1 l2 : List α) (a : α) :
    (l1 ++ a :: l2).eraseIdx l1.length = l1 ++ l2 := by
  rw [List.eraseIdx_append_of_length_le (Nat.le_refl l1.length), Nat.sub_self]
  rfl


lemma reorderMessages_down (l1 l2 l3 : List MessageItem) (dM tM : MessageItem) (b : Bool)
    (hdt : dM.id ≠ tM.id)
    (h1 : ∀ m ∈ l1, m.id ≠ dM.id ∧ m.id ≠ tM.id)
    (h2 : ∀ m ∈ l2, m.id ≠ dM.id ∧ m.id ≠ tM.id) :
    reorderMessages (l1 ++ dM :: (l2 ++ tM :: l3)) dM.id tM.id b =
      if b then l1 ++ (l2 ++ (dM :: tM :: l3)) else l1 ++ (l2 ++ (tM :: dM :: l3)) := by
  have hd : (l1 ++ dM :: (l2 ++ tM :: l3)).findIdx (fun m => m.id = dM.id) = l1.length := by
    rw [findIdx_append_of_neg _ _ _ fun x hx => by simpa using (h1 x hx).1]
    rw [findIdx_cons_self _ _ _ (by simp)]
    omega
  have ht : (l1 ++ dM :: (l2 ++ tM :: l3)).findIdx (fun m => m.id = tM.id) =
      l1.length + l2.length + 1 := by
    rw [findIdx_append_of_neg _ _ _ fun x hx => by simpa using (h1 x hx).2]
    have hdec : (decide (dM.id = tM.id)) = false := decide_eq_false hdt
    simp only [List.findIdx_cons, hdec, cond_false]
    rw [findIdx_append_of_neg _ _ _ fun x hx => by simpa using (h2 x hx).2]
    rw [findIdx_cons_self _ _ _ (by simp)]
    omega
  have hget : (l1 ++ dM :: (l2 ++ tM :: l3))[l1.length]? = some dM := by
    rw [List.getElem?_append]
    simp
  have herase : (l1 ++ dM :: (l2 ++ tM :: l3)).eraseIdx l1.length = l1 ++ (l2 ++ tM :: l3) :=
    eraseIdx_append_length l1 (l2 ++ tM :: l3) dM
  have hlen : (l1 ++ dM :: (l2 ++ tM :: l3)).length =
      l1.length + l2.length + l3.length + 2 := by
    simp [List.length_append]
    omega
  simp only [reorderMessages, if_neg hdt, hd, ht, hget, herase, hlen]
  rw [if_neg (show ¬ (l1.length + l2.length + l3.length + 2 ≤ l1.length ∨
      l1.length + l2.length + l3.length + 2 ≤ l1.length + l2.length + 1) from by omega)]
  rw [if_pos (show l1.length < l1.length + l2.length + 1 from by omega)]
  cases b with
  | true =>
      rw [if_pos rfl, if_pos rfl]
      rw [show l1.length + l2.length + 1 - 1 = l1.length + (l2.length + 0) from by omega]
      rw [insertIdx_length_add l1 (l2 ++ tM :: l3) dM (l2.length + 0)]
      rw [insertIdx_length_add l2 (tM :: l3) dM 0]
      rw [List.insertIdx_zero]
  | false =>
      rw [if_neg (show ¬ false = true from by simp), if_neg (show ¬ false = true from by simp)]
      rw [show l1.length + l2.length + 1 = l1.length + (l2.length + 1) from by omega]
      rw [insertIdx_length_add l1 (l2 ++ tM :: l3) dM (l2.length + 1)]
      rw [insertIdx_length_add l2 (tM :: l3) dM 1]
      rw [List.insertIdx_succ_cons, List.insertIdx_zero]

lemma reorderMessages_up (l1 l2 l3 : List MessageItem) (dM tM : MessageItem) (b : Bool)
    (hdt : dM.id ≠ tM.id)
    (h1 : ∀ m ∈ l1, m.id ≠ dM.id ∧ m.id ≠ tM.id)
    (h2 : ∀ m ∈ l2, m.id ≠ dM.id ∧ m.id ≠ tM.id) :
    reorderMessages (l1 ++ tM :: (l2 ++ dM :: l3)) dM.id tM.id b =
      if b then l1 ++ (dM :: tM :: (l2 ++ l3)) else l1 ++ (tM :: dM :: (l2 ++ l3)) := by
  have htd : (decide (tM.id = dM.id)) = false := decide_eq_false fun h => hdt h.symm
  have hd : (l1 ++ tM :: (l2 ++ dM :: l3)).findIdx (fun m => m.id = dM.id) =
      l1.length + l2.length + 1 := by
    rw [findIdx_append_of_neg _ _ _ fun x hx => by simpa using (h1 x hx).1]
    simp only [List.findIdx_cons, htd, cond_false]
    rw [findIdx_append_of_neg _ _ _ fun x hx => by simpa using (h2 x hx).1]
    rw [findIdx_cons_self _ _ _ (by simp)]
    omega
  have ht : (l1 ++ tM :: (l2 ++ dM :: l3)).findIdx (fun m => m.id = tM.id) = l1.length := by
    rw [findIdx_append_of_neg _ _ _ fun x hx => by simpa using (h1 x hx).2]
    rw [findIdx_cons_self _ _ _ (by simp)]
    omega
  have hget : (l1 ++ tM :: (l2 ++ dM :: l3))[l1.length + l2.length + 1]? = some dM := by
    rw [List.getElem?_append, if_neg (by omega)]
    rw [show l1.length + l2.length + 1 - l1.length = l2.length + 1 from by omega]
    rw [List.getElem?_cons_succ]
    rw [List.getElem?_append, if_neg (by omega)]
    rw [Nat.sub_self, List.getElem?_cons_zero]
  have herase : (l1 ++ tM :: (l2 ++ dM :: l3)).eraseIdx (l1.length + l2.length + 1) =
      l1 ++ (tM :: (l2 ++ l3)) := by
    rw [List.eraseIdx_append_of_length_le (by omega)]
    rw [show l1.length + l2.length + 1 - l1.length = l2.length + 1 from by omega]
    rw [List.eraseIdx_cons_succ]
    rw [eraseIdx_append_length l2 l3 dM]
  have hlen : (l1 ++ tM :: (l2 ++ dM :: l3)).length =
      l1.length + l2.length + l3.length + 2 := by
    simp [List.length_append]
    omega
  simp only [reorderMessages, if_neg hdt, hd, ht, hget, herase, hlen]
  rw [if_neg (show ¬ (l1.length + l2.length + l3.length + 2 ≤ l1.length + l2.length + 1 ∨
      l1.length + l2.length + l3.length + 2 ≤ l1.length) from by omega)]
  rw [if_neg (show ¬ (l1.length + l2.length + 1 < l1.length) from by omega)]
  cases b with
  | true =>
      rw [if_pos rfl, if_pos rfl]
      rw [show l1.length = l1.length + 0 from by omega]
      rw [insertIdx_length_add l1 (tM :: (l2 ++ l3)) dM 0]
      rw [List.insertIdx_zero]
  | false =>
      rw [if_neg (show ¬ false = true from by simp), if_neg (show ¬ false = true from by simp)]
      rw [show l1.length + 1 = l1.length + (0 + 1) from by omega]
      rw [insertIdx_length_add l1 (tM :: (l2 ++ l3)) dM (0 + 1)]
      rw [List.insertIdx_succ_cons, List.insertIdx_zero]

/-- C2: reorder removes the dragged item and reinserts it immediately
before or after the target, with the index-shift correction in both
relative orders of dragged and target.  Concretely, on [A,B,C,D] dragging
A to after C yields [B,C,A,D] and dragging D to before B yields
[A,D,B,C]. -/
theorem reorder_adjacent_to_target (l1 l2 l3 : List MessageItem) (dM tM : MessageItem)
    (b : Bool) (hdt : dM.id ≠ tM.id)
    (h1 : ∀ m ∈ l1, m.id ≠ dM.id ∧ m.id ≠ tM.id)
    (h2 : ∀ m ∈ l2, m.id ≠ dM.id ∧ m.id ≠ tM.id) :
    (reorderMessages (l1 ++ dM :: (l2 ++ tM :: l3)) dM.id tM.id b =
      if b then l1 ++ (l2 ++ (dM :: tM :: l3)) else l1 ++ (l2 ++ (tM :: dM :: l3)))
    ∧ (reorderMessages (l1 ++ tM :: (l2 ++ dM :: l3)) dM.id tM.id b =
      if b then l1 ++ (dM :: tM :: (l2 ++ l3)) else l1 ++ (tM :: dM :: (l2 ++ l3)))
    ∧ reorderMessages [itemA, itemB, itemC, itemD] "A" "C" false =
        [itemB, itemC, itemA, itemD]
    ∧ reorderMessages [itemA, itemB, itemC, itemD] "D" "B" true =
        [itemA, itemD, itemB, itemC] :=
  ⟨reorderMessages_down l1 l2 l3 dM tM b hdt h1 h2,
    reorderMessages_up l1 l2 l3 dM tM b hdt h1 h2, by decide, by decide⟩

/-- Witness for C2 at a concrete two-item list. -/
theorem reorder_adjacent_to_target_witness :
    reorderMessages ([] ++ itemA :: ([] ++ itemB :: [])) itemA.id itemB.id false =
      (if false then [] ++ ([] ++ (itemA :: itemB :: []))
        else [] ++ ([] ++ (itemB :: itemA :: []))) :=
  (reorder_adjacent_to_target [] [] [] itemA itemB false (by decide)
    (by decide) (by decide)).1

/-! ### C4: loading is cleared exactly once per generation flow -/

lemma outputLoading_updateOutput (outputs : List OutputItem) (id : String)
    (imageUrl : Option String) (text : String) :
    outputLoading (updateOutput outputs id imageUrl text) id = false := by
  induction outputs with
  | nil => rfl
  | cons o rest ih =>
      by_cases h : o.id = id
      · simp only [updateOutput, if_pos h, outputLoading]
        rw [List.find?_cons_of_pos _ (by simpa using h)]
      · simp only [updateOutput, if_neg h, outputLoading]
        rw [List.find?_cons_of_neg _ (by simpa using h)]
        exact ih

lemma applyUpdates_loading_false (updates : List (Option String × String)) :
    ∀ (outputs : List OutputItem) (id : String),
      ∀ s ∈ applyUpdates outputs id updates, outputLoading s id = false := by
  induction updates with
  | nil => intro outputs id s hs; simp [applyUpdates] at hs
  | cons u us ih =>
      intro outputs id s hs
      simp only [applyUpdates, List.mem_cons] at hs
      rcases hs with rfl | hs
      · exact outputLoading_updateOutput outputs id u.1 u.2
      · exact ih (updateOutput outputs id u.1 u.2) id s hs

lemma runUpdates_loading_false (updates : List (Option String × String)) :
    ∀ (outputs : List OutputItem) (id : String), updates ≠ [] →
      outputLoading (runUpdates outputs id updates) id = false := by
  induction updates with
  | nil => intro _ _ h; cases h rfl
  | cons u us ih =>
      intro outputs id _
      cases us with
      | nil =>
          simp only [runUpdates, List.foldl_cons, List.foldl_nil]
          exact outputLoading_updateOutput outputs id u.1 u.2
      | cons v vs =>
          exact ih (updateOutput outputs id u.1 u.2) id (by simp)

lemma countFlips_cons_false (l : List Bool) (h : ∀ x ∈ l, x = false) :
    countFlips (false :: l) = 0 := by
  induction l with
  | nil => rfl
  | cons a l ih =>
      have ha : a = false := h a (List.mem_cons_self a l)
      subst ha
      simp only [countFlips]
      rw [ih fun x hx => h x (List.mem_cons_of_mem _ hx)]
      simp

lemma countFlips_true_cons (l : List Bool) (hne : l ≠ []) (h : ∀ x ∈ l, x = false) :
    countFlips (true :: l) = 1 := by
  cases l with
  | nil => cases hne rfl
  | cons a l =>
      have ha : a = false := h a (List.mem_cons_self a l)
      subst ha
      simp only [countFlips]
      rw [countFlips_cons_false l fun x hx => h x (List.mem_cons_of_mem _ hx)]
      simp

lemma textStreamUpdates_ne_nil (chunks : List (Option String)) :
    textStreamUpdates chunks ≠ [] := by
  cases chunks <;> simp [textStreamUpdates, textStreamUpdatesAux]

lemma applyUpdates_ne_nil (outputs : List OutputItem) (id : String)
    (updates : List (Option String × String)) (h : updates ≠ []) :
    applyUpdates outputs id updates ≠ [] := by
  cases updates with
  | nil => cases h rfl
  | cons u us => simp [applyUpdates]

lemma flip_trace_eq_one (outputs : List OutputItem) (id : String)
    (updates : List (Option String × String)) (hne : updates ≠ [])
    (h : outputLoading outputs id = true) :
    countFlips ((outputs :: applyUpdates outputs id updates).map
      fun s => outputLoading s id) = 1 := by
  simp only [List.map_cons, h]
  refine countFlips_true_cons _ ?_ ?_
  · simpa [List.map_eq_nil_iff] using applyUpdates_ne_nil outputs id updates hne
  · exact List.forall_mem_map.mpr fun s hs => applyUpdates_loading_false updates outputs id s hs

/-- C4: starting from an output in its created loading state, both
generation flows clear `loading` exactly once over their whole sequence of
updates (for the text flow this includes every per-chunk incremental
update), and the final state always has `loading` false. -/
theorem output_loading_cleared_once (outputs : List OutputItem) (id : String)
    (txtChunks : List (Option String)) (imgChunks : List (List StreamPart))
    (h : outputLoading outputs id = true) :
    countFlips ((outputs :: applyUpdates outputs id (textStreamUpdates txtChunks)).map
        fun s => outputLoading s id) = 1
    ∧ outputLoading (runUpdates outputs id (textStreamUpdates txtChunks)) id = false
    ∧ countFlips ((outputs :: applyUpdates outputs id (imageStreamUpdates imgChunks)).map
        fun s => outputLoading s id) = 1
    ∧ outputLoading (runUpdates outputs id (imageStreamUpdates imgChunks)) id = false :=
  ⟨flip_trace_eq_one outputs id _ (textStreamUpdates_ne_nil txtChunks) h,
    runUpdates_loading_false _ outputs id (textStreamUpdates_ne_nil txtChunks),
    flip_trace_eq_one outputs id _ (by simp [imageStreamUpdates]) h,
    runUpdates_loading_false _ outputs id (by simp [imageStreamUpdates])⟩

/-- Witness for C4 at a concrete loading output. -/
theorem output_loading_cleared_once_witness :
    countFlips (([{ id := "1", imageUrl := none, text := "Generating...", loading := true }] ::
        applyUpdates [{ id := "1", imageUrl := none, text := "Generating...", loading := true }]
          "1" (textStreamUpdates [some "He"])).map
        fun s => outputLoading s "1") = 1
    ∧ outputLoading (runUpdates
        [{ id := "1", imageUrl := none, text := "Generating...", loading := true }] "1"
        (textStreamUpdates [some "He"])) "1" = false := by
  have h := output_loading_cleared_once
    [{ id := "1", imageUrl := none, text := "Generating...", loading := true }] "1"
    [some "He"] [] (by decide)
  exact ⟨h.1, h.2.1⟩

/-! ### C3: template load failure leaves the already-decoded entries -/

/-- Counterexample to C3: on a template whose second non-system entry's
image fetch fails, the load does surface the user-facing error, but the
Message List is not empty afterwards — the first entry stays committed. -/
theorem template_load_counterexample :
    (loadTemplate failEnv sampleTemplate "").alertMsg = some "Failed to load template."
    ∧ (loadTemplate failEnv sampleTemplate "").messages ≠ [] := by decide

/-- C3 (amended): a fetch/decode failure on the second non-system entry
aborts the rest of the load and surfaces the user-facing error, but the
Message List keeps exactly the item built from the first entry rather
than being rolled back to empty. -/
theorem template_load_aborts_after_failure (env : String → Except String Blob)
    (tmpl : Template) (prevSystem : String) (e1 e2 : TemplateMessage)
    (rest : List TemplateMessage) (p1 : Option ImagePayload) (u err : String)
    (hfilter : tmpl.messages.filter (fun m => m.role ≠ "system") = e1 :: e2 :: rest)
    (h1 : decodeEntryImage env e1.image = Except.ok p1)
    (h2 : e2.image = some u) (hu : env u = Except.error err) :
    (loadTemplate env tmpl prevSystem).messages = [{ id := "1", text := e1.text, image := p1 }]
    ∧ (loadTemplate env tmpl prevSystem).alertMsg = some "Failed to load template." := by
  have h2' : decodeEntryImage env e2.image = Except.error err := by
    rw [h2]
    simp [decodeEntryImage, hu]
  unfold loadTemplate
  rw [hfilter]
  simp only [loadTemplateGo, h1, h2']
  constructor <;> trivial

/-- Witness for the amended C3 at a concrete template and environment. -/
theorem template_load_aborts_after_failure_witness :
    (loadTemplate failEnv sampleTemplate "").messages =
      [{ id := "1", text := "first", image := none }]
    ∧ (loadTemplate failEnv sampleTemplate "").alertMsg = some "Failed to load template." := by
  have h := template_load_aborts_after_failure failEnv sampleTemplate ""
    { role := "user", text := "first", image := none }
    { role := "user", text := "second", image := some "u" } [] none "u" "fetch failed"
    (by decide) rfl rfl rfl
  exact h

/-! ### C9: id uniqueness and monotonicity of the message-id counter -/

lemma charVal_digitChar (m : Nat) (h : m < 10) : charVal (Nat.digitChar m) = m := by
  interval_cases m <;> decide

lemma foldl_toDigitsCore (f : Nat) : ∀ (n : Nat) (l : List Char), n < f →
    (Nat.toDigitsCore 10 f n l).foldl (fun a c => 10 * a + charVal c) 0 =
      l.foldl (fun a c => 10 * a + charVal c) n := by
  induction f with
  | zero => intro n l h; exact absurd h (Nat.not_lt_zero n)
  | succ f ih =>
      intro n l h
      simp only [Nat.toDigitsCore]
      by_cases h10 : n / 10 = 0
      · rw [if_pos h10]
        have hn : n < 10 := (Nat.div_eq_zero_iff (by norm_num)).1 h10
        simp only [List.foldl_cons]
        rw [charVal_digitChar (n % 10) (Nat.mod_lt n (by norm_num))]
        rw [show 10 * 0 + n % 10 = n from by omega]
      · rw [if_neg h10]
        have hpos : 0 < n := Nat.pos_of_ne_zero fun h0 => by
          subst h0
          simp at h10
        have hlt : n / 10 < f := by
          have h1 : n / 10 < n := Nat.div_lt_self hpos (by norm_num)
          omega
        rw [ih (n / 10) (Nat.digitChar (n % 10) :: l) hlt]
        simp only [List.foldl_cons]
        rw [charVal_digitChar (n % 10) (Nat.mod_lt n (by norm_num))]
        rw [show 10 * (n / 10) + n % 10 = n from by omega]

lemma decDigitsVal_toDigits (n : Nat) : decDigitsVal (Nat.toDigits 10 n) = n := by
  unfold Nat.toDigits decDigitsVal
  rw [foldl_toDigitsCore (n + 1) n [] (Nat.lt_succ_self n)]
  rfl

lemma natRepr_injective : Function.Injective Nat.repr := by
  intro a b h
  have hdata : Nat.toDigits 10 a = Nat.toDigits 10 b := by
    have h2 := congrArg String.data h
    simpa [Nat.repr, List.asString] using h2
  have ha := decDigitsVal_toDigits a
  have hb := decDigitsVal_toDigits b
  rw [← ha, ← hb, hdata]

lemma perm_insertIdx {α : Type} (a : α) : ∀ (l : List α) (i : Nat), i ≤ l.length →
    (l.insertIdx i a).Perm (a :: l) := by
  intro l
  induction l with
  | nil =>
      intro i h
      have hi : i = 0 := by simpa using h
      subst hi
      simp
  | cons b l ih =>
      intro i h
      cases i with
      | zero => simp [List.insertIdx_zero]
      | succ i =>
          rw [List.insertIdx_succ_cons]
          exact List.Perm.trans (List.Perm.cons b (ih i (by simpa using h)))
            (List.Perm.swap a b l)

lemma perm_cons_eraseIdx {α : Type} : ∀ (l : List α) (i : Nat) (a : α),
    l[i]? = some a → (a :: l.eraseIdx i).Perm l := by
  intro l
  induction l with
  | nil => intro i a h; simp at h
  | cons b l ih =>
      intro i a h
      cases i with
      | zero =>
          rw [List.getElem?_cons_zero] at h
          cases h
          exact List.Perm.refl _
      | succ i =>
          rw [List.getElem?_cons_succ] at h
          rw [List.eraseIdx_cons_succ]
          exact List.Perm.trans (List.Perm.swap b a (l.eraseIdx i))
            (List.Perm.cons b (ih i a h))

lemma findIdx_eq_imp_both {α : Type} (p q : α → Bool) :
    ∀ l : List α, l.findIdx p < l.length → l.findIdx q < l.length →
      l.findIdx p = l.findIdx q → ∃ x ∈ l, p x = true ∧ q x = true := by
  intro l
  induction l with
  | nil => intro h; simp at h
  | cons a l ih =>
      intro hp hq he
      by_cases hpa : p a = true
      · by_cases hqa : q a = true
        · exact ⟨a, List.mem_cons_self a l, hpa, hqa⟩
        · rw [findIdx_cons_self p a l hpa] at he
          simp [List.findIdx_cons, hqa] at he
      · by_cases hqa : q a = true
        · rw [findIdx_cons_self q a l hqa] at he
          simp [List.findIdx_cons, hpa] at he
        · simp only [List.findIdx_cons, Bool.cond_eq_ite, if_neg hpa, if_neg hqa,
            List.length_cons] at hp hq he
          obtain ⟨x, hx, h1, h2⟩ := ih (by omega) (by omega) (by omega)
          exact ⟨x, List.mem_cons_of_mem a hx, h1, h2⟩

lemma reorderMessages_perm (messages : List MessageItem) (d t : String) (b : Bool) :
    (reorderMessages messages d t b).Perm messages := by
  simp only [reorderMessages]
  split
  · exact List.Perm.refl _
  · next hne =>
      split
      · exact List.Perm.refl _
      · next hcond =>
          split
          · exact List.Perm.refl _
          · next dM hm =>
              push_neg at hcond
              obtain ⟨hdlt, htlt⟩ := hcond
              have hdt : messages.findIdx (fun m => m.id = d) ≠
                  messages.findIdx (fun m => m.id = t) := by
                intro he
                obtain ⟨x, _, h1, h2⟩ := findIdx_eq_imp_both
                  (fun m => decide (m.id = d)) (fun m => decide (m.id = t))
                  messages hdlt htlt he
                simp only [decide_eq_true_eq] at h1 h2
                exact hne (h1 ▸ h2)
              have herlen : (messages.eraseIdx
                  (messages.findIdx fun m => m.id = d)).length = messages.length - 1 := by
                rw [List.length_eraseIdx]
                simp [hdlt]
              have hbound : (if (messages.findIdx fun m => m.id = d) <
                    (messages.findIdx fun m => m.id = t) then
                    if b then (messages.findIdx fun m => m.id = t) - 1
                    else (messages.findIdx fun m => m.id = t)
                  else
                    if b then (messages.findIdx fun m => m.id = t)
                    else (messages.findIdx fun m => m.id = t) + 1) ≤
                  (messages.eraseIdx (messages.findIdx fun m => m.id = d)).length := by
                rw [herlen]
                split <;> split <;> omega
              exact List.Perm.trans (perm_insertIdx dM _ _ hbound)
                (perm_cons_eraseIdx messages _ dM hm)

lemma msgInv_init : MsgInv initMsgState := by
  constructor
  · intro m hm; simp [initMsgState] at hm
  · simp [initMsgState, msgIds]

lemma msgInv_step (st : MsgState) (op : MsgOp) (h : MsgInv st) : MsgInv (msgStep st op) := by
  obtain ⟨hbound, hnodup⟩ := h
  cases op with
  | add =>
      constructor
      · intro m hm
        simp only [msgStep, addItem, List.mem_append, List.mem_singleton] at hm
        rcases hm with hm | rfl
        · obtain ⟨k, hk, hklt⟩ := hbound m hm
          exact ⟨k, hk, by simp only [msgStep, addItem]; omega⟩
        · exact ⟨st.nextId, rfl, by simp [msgStep, addItem]⟩
      · simp only [msgStep, addItem, msgIds, List.map_append, List.map_cons, List.map_nil]
        rw [List.nodup_append]
        refine ⟨hnodup, List.nodup_singleton _, ?_⟩
        intro a ha hb
        simp only [List.mem_singleton] at hb
        subst hb
        simp only [msgIds, List.mem_map] at ha
        obtain ⟨m, hm, hid⟩ := ha
        obtain ⟨k, hk, hklt⟩ := hbound m hm
        rw [hk] at hid
        have := natRepr_injective hid
        omega
  | delete id =>
      constructor
      · intro m hm
        simp only [msgStep, deleteMessage] at hm
        obtain ⟨k, hk, hklt⟩ := hbound m (List.mem_of_mem_filter hm)
        exact ⟨k, hk, hklt⟩
      · simp only [msgStep, deleteMessage, msgIds]
        exact List.Nodup.sublist (List.Sublist.map _ (List.filter_sublist _)) hnodup
  | reorder d t b =>
      have hperm := reorderMessages_perm st.messages d t b
      constructor
      · intro m hm
        exact hbound m (hperm.mem_iff.mp hm)
      · show (List.map (fun m => m.id) (reorderMessages st.messages d t b)).Nodup
        exact ((hperm.map fun m => m.id).symm).nodup
          (show (List.map (fun m => m.id) st.messages).Nodup from hnodup)

lemma msgInv_run (ops : List MsgOp) : ∀ st : MsgState, MsgInv st → MsgInv (msgRun st ops) := by
  induction ops with
  | nil => intro st h; exact h
  | cons op ops ih => intro st h; exact ih (msgStep st op) (msgInv_step st op h)

lemma msgStep_nextId_le (st : MsgState) (op : MsgOp) : st.nextId ≤ (msgStep st op).nextId := by
  cases op <;> simp [msgStep, addItem]

lemma msgRun_nextId_mono (ops : List MsgOp) : ∀ st : MsgState,
    st.nextId ≤ (msgRun st ops).nextId := by
  induction ops with
  | nil => intro st; exact Nat.le_refl _
  | cons op ops ih =>
      intro st
      exact Nat.le_trans (msgStep_nextId_le st op) (ih (msgStep st op))

lemma msgRun_append (ops1 : List MsgOp) : ∀ (st : MsgState) (ops2 : List MsgOp),
    msgRun st (ops1 ++ ops2) = msgRun (msgRun st ops1) ops2 := by
  induction ops1 with
  | nil => intro st ops2; rfl
  | cons op ops ih => intro st ops2; exact ih (msgStep st op) ops2

/-- C9: along every operation sequence from a reachable state, the message
ids stay pairwise distinct, the id counter never decreases, and the id the
next add would assign is never equal to the id assigned by any add that
happens strictly later — so no deleted id is ever reissued. -/
theorem message_id_invariants (ops0 ops ops2 : List MsgOp) :
    (msgIds (msgRun (msgRun initMsgState ops0) ops).messages).Nodup
    ∧ (msgRun initMsgState ops0).nextId ≤ (msgRun (msgRun initMsgState ops0) ops).nextId
    ∧ Nat.repr (msgRun (msgRun initMsgState ops0) ops).nextId ≠
        Nat.repr (msgRun (msgRun initMsgState ops0) (ops ++ MsgOp.add :: ops2)).nextId := by
  have hinv : MsgInv (msgRun (msgRun initMsgState ops0) ops) :=
    msgInv_run ops (msgRun initMsgState ops0) (msgInv_run ops0 initMsgState msgInv_init)
  refine ⟨hinv.2, msgRun_nextId_mono ops (msgRun initMsgState ops0), ?_⟩
  intro heq
  have heqn := natRepr_injective heq
  have hstrict : (msgRun (msgRun initMsgState ops0) ops).nextId <
      (msgRun (msgRun initMsgState ops0) (ops ++ MsgOp.add :: ops2)).nextId := by
    rw [msgRun_append]
    have h2 := msgRun_nextId_mono ops2
      (msgStep (msgRun (msgRun initMsgState ops0) ops) MsgOp.add)
    have h1 : (msgStep (msgRun (msgRun initMsgState ops0) ops) MsgOp.add).nextId =
        (msgRun (msgRun initMsgState ops0) ops).nextId + 1 := rfl
    simp only [msgRun]
    omega
  omega
